import Mathlib

/-!
Verification development for the "AI Code Architect" single-page application.

The embedding below models, over plain Lean data types:
* the Corpus Assembler (`processFiles` in `src/App.tsx`), including its two
  path filters (`IGNORED_DIRS` segment exclusion and the `ALLOWED_EXTENSIONS`
  allow-list) and the fixed corpus delimiter format;
* the Workflow Controller (`handleGenerate` in `src/App.tsx`) together with
  the generate button whose `disabled` attribute gates it;
* the chat transcript logic (`ChatInterface.handleSend`), whose message ids
  are derived from `Date.now()` readings.

JavaScript string operations (`includes`, `startsWith`, `endsWith`,
`toLowerCase`, `trim`) are modelled over the character lists underlying
Lean strings.
-/

namespace CodeArch

/-- Model of the JavaScript `String.prototype.includes` test: `sub` occurs as
a contiguous substring of the receiver (both viewed as character lists). -/
def hasSubstr (sub : List Char) : List Char → Bool
  | [] => sub.isPrefixOf []
  | c :: t => sub.isPrefixOf (c :: t) || hasSubstr sub t

/-- JS `path.includes(sub)` on Lean strings. -/
def includesStr (s sub : String) : Bool := hasSubstr sub.data s.data

/-- JS `path.startsWith(p)` on Lean strings. -/
def startsWithStr (s p : String) : Bool := p.data.isPrefixOf s.data

/-- JS `path.endsWith(p)` on Lean strings. -/
def endsWithStr (s p : String) : Bool := p.data.isSuffixOf s.data

/-- JS `path.toLowerCase()` (ASCII lowering, which is all the filter constants
need) on Lean strings. -/
def jsToLower (s : String) : String := List.asString (s.data.map Char.toLower)

/-- Whitespace recognised by the model of JS `String.prototype.trim`. -/
def isWhitespace (c : Char) : Bool :=
  c = ' ' || c = '\t' || c = '\n' || c = '\r'

/-- JS `s.trim()` on Lean strings: strip whitespace from both ends. -/
def jsTrim (s : String) : String :=
  List.asString ((((s.data.dropWhile isWhitespace).reverse).dropWhile isWhitespace).reverse)

/-- Directory names excluded by the Corpus Assembler (`IGNORED_DIRS` in
`src/App.tsx`). -/
def IGNORED_DIRS : List String :=
  ["node_modules", ".git", "dist", "build", ".next", "coverage"]

/-- Extension allow-list of the Corpus Assembler (`ALLOWED_EXTENSIONS` in
`src/App.tsx`). -/
def ALLOWED_EXTENSIONS : List String :=
  [".ts", ".tsx", ".js", ".jsx", ".json", ".css", ".scss", ".html", ".md", ".sql", ".prisma"]

/-- Directory-exclusion check of `processFiles`:
`IGNORED_DIRS.some(dir => path.includes('/'+dir+'/') || path.startsWith(dir+'/'))`. -/
def isIgnoredPath (path : String) : Bool :=
  IGNORED_DIRS.any fun dir => includesStr path ("/" ++ dir ++ "/") || startsWithStr path (dir ++ "/")

/-- Extension check of `processFiles`:
`ALLOWED_EXTENSIONS.some(ext => path.toLowerCase().endsWith(ext))`. -/
def isAllowedPath (path : String) : Bool :=
  ALLOWED_EXTENSIONS.any fun ext => endsWithStr (jsToLower path) ext

/-- One raw file handed to the Corpus Assembler: its relative path, the result
of reading it (`none` models a rejected `readFileContent` promise) and its
reported byte size. -/
structure SourceFile where
  path : String
  content : Option String
  size : Nat

/-- Manifest entry (`FileItem` in `src/App.tsx`). -/
structure FileItem where
  path : String
  size : Nat
deriving DecidableEq, Repr

/-- Corpus block emitted for one accepted file:
the template literal `--- START OF FILE (path) ---\n(content)\n\n`. -/
def fileBlock (path content : String) : String :=
  "--- START OF FILE " ++ path ++ " ---\n" ++ content ++ "\n\n"

/-- Loop body of `processFiles`: walk the selection in order, skip filtered or
unreadable items, push accepted items onto the manifest and append their block
to the accumulated corpus string. -/
def processFilesLoop : List SourceFile → List FileItem → String → List FileItem × String
  | [], validFiles, code => (validFiles, code)
  | f :: fs, validFiles, code =>
    if isIgnoredPath f.path then processFilesLoop fs validFiles code
    else if !isAllowedPath f.path then processFilesLoop fs validFiles code
    else match f.content with
      | some content =>
          processFilesLoop fs (validFiles ++ [⟨f.path, f.size⟩]) (code ++ fileBlock f.path content)
      | none => processFilesLoop fs validFiles code

/-- The Corpus Assembler `processFiles` of `src/App.tsx`: returns the manifest
(`validFiles`) and the concatenated corpus (`concatenatedCode`). -/
def processFiles (files : List SourceFile) : List FileItem × String :=
  processFilesLoop files [] ""

/-- An item survives both path filters and its read succeeded. -/
def accepts (f : SourceFile) : Bool :=
  !isIgnoredPath f.path && isAllowedPath f.path && f.content.isSome

/-- The accepted sub-selection, in selection order. -/
def acceptedFiles (files : List SourceFile) : List SourceFile :=
  files.filter accepts

/-- Content of a file whose read succeeded (defaulting to the empty string). -/
def contentOf (f : SourceFile) : String := f.content.getD ""

theorem strAppend_assoc (a b c : String) : a ++ b ++ c = a ++ (b ++ c) :=
  String.ext (by simp [String.data_append])

theorem strAppend_empty (a : String) : a ++ "" = a :=
  String.ext (by simp [String.data_append])

theorem strEmpty_append (a : String) : "" ++ a = a :=
  String.ext (by simp [String.data_append])

theorem strJoin_cons (s : String) (l : List String) :
    String.join (s :: l) = s ++ String.join l := by
  have h : ∀ (l : List String) (a : String),
      List.foldl (· ++ ·) a l = a ++ List.foldl (· ++ ·) "" l := by
    intro l
    induction l with
    | nil => intro a; exact (strAppend_empty a).symm
    | cons x xs ih =>
        intro a
        simp only [List.foldl]
        rw [ih ("" ++ x), ih (a ++ x), ← strAppend_assoc, strEmpty_append]
  simp only [String.join, List.foldl]
  rw [h l ("" ++ s), strEmpty_append]

theorem processFilesLoop_eq (files : List SourceFile) :
    ∀ (acc : List FileItem) (code : String),
      processFilesLoop files acc code =
        (acc ++ (acceptedFiles files).map (fun f => ⟨f.path, f.size⟩),
         code ++ String.join ((acceptedFiles files).map fun f => fileBlock f.path (contentOf f))) := by
  induction files with
  | nil =>
      intro acc code
      simp [processFilesLoop, acceptedFiles, String.join, strAppend_empty]
  | cons f fs ih =>
      intro acc code
      by_cases hig : isIgnoredPath f.path
      · have hacc : accepts f = false := by simp [accepts, hig]
        simp [processFilesLoop, hig, acceptedFiles, List.filter, hacc, ih,
          acceptedFiles]
      · by_cases hal : isAllowedPath f.path
        · cases hc : f.content with
          | some content =>
              have hacc : accepts f = true := by simp [accepts, hig, hal, hc]
              have hstep : processFilesLoop (f :: fs) acc code =
                  processFilesLoop fs (acc ++ [⟨f.path, f.size⟩]) (code ++ fileBlock f.path content) := by
                simp [processFilesLoop, hig, hal, hc]
              have hacc2 : acceptedFiles (f :: fs) = f :: acceptedFiles fs := by
                simp [acceptedFiles, List.filter, hacc]
              rw [hstep, ih, hacc2]
              simp only [List.map_cons, strJoin_cons, contentOf, hc, Option.getD_some,
                Prod.mk.injEq]
              exact ⟨by simp, strAppend_assoc _ _ _⟩
          | none =>
              have hacc : accepts f = false := by simp [accepts, hc]
              simp [processFilesLoop, hig, hal, hc, acceptedFiles, List.filter, hacc, ih,
                acceptedFiles]
        · have hacc : accepts f = false := by simp [accepts, hal]
          simp [processFilesLoop, hig, hal, acceptedFiles, List.filter, hacc, ih,
            acceptedFiles]

/-- C2: the assembled corpus text is exactly the concatenation, in selection
order, of one block `--- START OF FILE (path) ---\n(content)\n\n` per accepted
item, and the manifest is exactly the accepted items' (path, size) pairs in
that same order. -/
theorem corpus_text_and_manifest (files : List SourceFile) :
    processFiles files =
      ((acceptedFiles files).map (fun f => ⟨f.path, f.size⟩),
       String.join ((acceptedFiles files).map fun f => fileBlock f.path (contentOf f))) := by
  have h := processFilesLoop_eq files [] ""
  simpa [processFiles] using h

/-- Workflow state enum from `src/types.ts`. -/
inductive AppState where
  | IDLE
  | GENERATING
  | SUCCESS
  | ERROR
deriving DecidableEq, Repr

/-- Right-panel tab selector (`'doc' | 'chat'` in `src/App.tsx`). -/
inductive Tab where
  | doc
  | chat
deriving DecidableEq, Repr

/-- The mutable state owned by the `App` component: the corpus string, the
manifest, the rendered document, the workflow state, the key-modal flag, the
chat session ref, the active tab, and the credential held in `localStorage`
under `gemini_api_key` (`none` = absent). Session handles are opaque and
modelled as natural numbers. -/
structure AppSt where
  code : String
  fileList : List FileItem
  docResult : String
  appState : AppState
  isKeyModalOpen : Bool
  chatSession : Option Nat
  activeTab : Tab
  apiKey : Option String
deriving Repr

/-- The two remote calls `handleGenerate` can issue, in issue order. -/
inductive RemoteCall where
  | generateDoc
  | createChat
deriving DecidableEq, Repr

/-- Literal prefix of the document slot written by the catch branch of
`handleGenerate` (the template literal around `error.message`). -/
def errorDocPrefix : String := "**Error generating documentation:** \n\n"

/-- Synchronous prefix of `handleGenerate`, up to and including the moment the
document-generation request is issued: the empty-corpus guard, the missing-key
guard (which opens the key modal and returns), and on success of both guards
the entry into `GENERATING` (clearing the previous document and chat session
and switching to the doc tab). The boolean reports whether the remote
generation call was started. -/
def handleGenerateStart (s : AppSt) : AppSt × Bool :=
  if jsTrim s.code = "" then (s, false)
  else
    match s.apiKey with
    | none => ({ s with isKeyModalOpen := true }, false)
    | some _ =>
        ({ s with appState := AppState.GENERATING, docResult := "",
                  chatSession := none, activeTab := Tab.doc }, true)

/-- Continuation of `handleGenerate` after the document-generation call
settles. `docOutcome` is the result of `generateDocFromCode` (error carries the
failure's human-readable message); `sessionOutcome` is the result of
`createChatSession`. A document failure renders the message into the document
slot and moves to `ERROR`; a session failure is only logged and the workflow
still reaches `SUCCESS`. -/
def handleGenerateFinish (s : AppSt) (docOutcome : Except String String)
    (sessionOutcome : Except String Nat) : AppSt × List RemoteCall :=
  match docOutcome with
  | Except.error msg =>
      ({ s with docResult := errorDocPrefix ++ msg, appState := AppState.ERROR },
       [RemoteCall.generateDoc])
  | Except.ok markdown =>
      match sessionOutcome with
      | Except.ok session =>
          ({ s with docResult := markdown, chatSession := some session,
                    appState := AppState.SUCCESS },
           [RemoteCall.generateDoc, RemoteCall.createChat])
      | Except.error _ =>
          ({ s with docResult := markdown, chatSession := none,
                    appState := AppState.SUCCESS },
           [RemoteCall.generateDoc, RemoteCall.createChat])

/-- One complete run of `handleGenerate` from `src/App.tsx`, parameterised by
the outcomes of the two remote calls; returns the final component state and
the remote calls issued during the run. -/
def handleGenerate (s : AppSt) (docOutcome : Except String String)
    (sessionOutcome : Except String Nat) : AppSt × List RemoteCall :=
  match handleGenerateStart s with
  | (s1, false) => (s1, [])
  | (s1, true) => handleGenerateFinish s1 docOutcome sessionOutcome

/-- The user-facing "start generation" action: the Generate button invokes
`handleGenerate` only when not disabled, and its `disabled` attribute is
`fileList.length === 0 || appState === AppState.GENERATING`. -/
def startGeneration (s : AppSt) (docOutcome : Except String String)
    (sessionOutcome : Except String Nat) : AppSt × List RemoteCall :=
  if s.fileList = [] ∨ s.appState = AppState.GENERATING then (s, [])
  else handleGenerate s docOutcome sessionOutcome

/-- Message roles from `src/types.ts`. -/
inductive Role where
  | user
  | model
deriving DecidableEq, Repr

/-- Chat message record (`ChatMessage` in `src/types.ts`). -/
structure ChatMessage where
  id : String
  role : Role
  text : String
  timestamp : Nat
deriving DecidableEq, Repr

/-- Local state of `ChatInterface`: the visible transcript, the text-area
content, and the in-flight flag. -/
structure ChatSt where
  messages : List ChatMessage
  input : String
  isSending : Bool
deriving Repr

/-- Fallback text used when `sendMessage` succeeds with an empty response. -/
def emptyRespText : String := "无法生成回答，请重试。"

/-- Fixed text of the synthetic model turn appended when `sendMessage` fails. -/
def sendFailText : String := "**错误**: 发送消息失败，请检查网络或 API Key。"

/-- Text shown for a successful reply: `responseText || '无法生成回答，请重试。'`
(`none` models an `undefined` response field, and the empty string is falsy). -/
def respText : Option String → String
  | some t => if t = "" then emptyRespText else t
  | none => emptyRespText

/-- Greeting inserted by `ChatInterface` when a session first becomes
available, with the literal id `'init'`. -/
def initGreeting (t : Nat) : ChatMessage :=
  ⟨"init", Role.model,
   "我已经分析了您的代码和技术文档。您可以问我任何关于项目逻辑、数据结构或代码实现的问题。", t⟩

/-- One run of `ChatInterface.handleSend`, parameterised by whether a session
handle is present, the outcome of `chatSession.sendMessage`, and the four
`Date.now()` readings taken during the run (user id, user timestamp, model id
base, model timestamp). The user turn's id is `Date.now().toString()`, the
reply's id is `(Date.now() + 1).toString()`. -/
def handleSend (s : ChatSt) (hasSession : Bool)
    (outcome : Except String (Option String)) (t1 t2 t3 t4 : Nat) : ChatSt :=
  if jsTrim s.input = "" || !hasSession || s.isSending then s
  else
    let userMsg : ChatMessage := ⟨Nat.repr t1, Role.user, s.input, t2⟩
    match outcome with
    | Except.ok resp =>
        { messages := s.messages ++ [userMsg, ⟨Nat.repr (t3 + 1), Role.model, respText resp, t4⟩],
          input := "", isSending := false }
    | Except.error _ =>
        { messages := s.messages ++ [userMsg, ⟨Nat.repr (t3 + 1), Role.model, sendFailText, t4⟩],
          input := "", isSending := false }

/-- C1: from every component state whose workflow state is already
`GENERATING`, the user-facing start-generation action is a no-op: the state is
returned unchanged and no remote call is issued, because the Generate button's
`disabled` attribute includes `appState === AppState.GENERATING`. -/
theorem start_while_generating_is_noop (s : AppSt)
    (docOutcome : Except String String) (sessionOutcome : Except String Nat)
    (h : s.appState = AppState.GENERATING) :
    startGeneration s docOutcome sessionOutcome = (s, []) := by
  simp [startGeneration, h]

/-- C1 witness: a concrete `GENERATING` state on which the action is a no-op. -/
theorem start_while_generating_is_noop_witness :
    startGeneration ⟨"c", [⟨"a.ts", 1⟩], "", AppState.GENERATING, false, none, Tab.doc, some "k"⟩
      (Except.ok "doc") (Except.ok 0) =
      (⟨"c", [⟨"a.ts", 1⟩], "", AppState.GENERATING, false, none, Tab.doc, some "k"⟩, []) :=
  start_while_generating_is_noop _ _ _ rfl

/-- C5: when the credential is present, the corpus is non-empty and the
document-generation call fails, `handleGenerate` ends in `ERROR`, the document
slot holds the fixed error rendering with the failure's message embedded, and
the session handle is null. -/
theorem doc_failure_renders_error (s : AppSt) (k msg : String)
    (sessionOutcome : Except String Nat)
    (hk : s.apiKey = some k) (hc : jsTrim s.code ≠ "") :
    (handleGenerate s (Except.error msg) sessionOutcome).1.appState = AppState.ERROR ∧
    (handleGenerate s (Except.error msg) sessionOutcome).1.docResult = errorDocPrefix ++ msg ∧
    (handleGenerate s (Except.error msg) sessionOutcome).1.chatSession = none := by
  simp [handleGenerate, handleGenerateStart, handleGenerateFinish, hk, hc]

/-- C5 witness: concrete failing generation ending in a rendered `ERROR`. -/
theorem doc_failure_renders_error_witness :
    (handleGenerate ⟨"x", [], "", AppState.IDLE, false, none, Tab.doc, some "k"⟩
        (Except.error "quota exceeded") (Except.ok 0)).1.appState = AppState.ERROR ∧
    (handleGenerate ⟨"x", [], "", AppState.IDLE, false, none, Tab.doc, some "k"⟩
        (Except.error "quota exceeded") (Except.ok 0)).1.docResult =
      errorDocPrefix ++ "quota exceeded" ∧
    (handleGenerate ⟨"x", [], "", AppState.IDLE, false, none, Tab.doc, some "k"⟩
        (Except.error "quota exceeded") (Except.ok 0)).1.chatSession = none :=
  doc_failure_renders_error _ "k" "quota exceeded" _ rfl (by decide)

/-- C6: when the document generates successfully but session creation throws,
`handleGenerate` still ends in `SUCCESS` with the generated document set and
no session handle. -/
theorem session_failure_still_success (s : AppSt) (k markdown err : String)
    (hk : s.apiKey = some k) (hc : jsTrim s.code ≠ "") :
    (handleGenerate s (Except.ok markdown) (Except.error err)).1.appState = AppState.SUCCESS ∧
    (handleGenerate s (Except.ok markdown) (Except.error err)).1.docResult = markdown ∧
    (handleGenerate s (Except.ok markdown) (Except.error err)).1.chatSession = none := by
  simp [handleGenerate, handleGenerateStart, handleGenerateFinish, hk, hc]

/-- C6 witness: concrete run where only session creation fails. -/
theorem session_failure_still_success_witness :
    (handleGenerate ⟨"x", [], "", AppState.IDLE, false, none, Tab.doc, some "k"⟩
        (Except.ok "# Doc") (Except.error "boom")).1.appState = AppState.SUCCESS ∧
    (handleGenerate ⟨"x", [], "", AppState.IDLE, false, none, Tab.doc, some "k"⟩
        (Except.ok "# Doc") (Except.error "boom")).1.docResult = "# Doc" ∧
    (handleGenerate ⟨"x", [], "", AppState.IDLE, false, none, Tab.doc, some "k"⟩
        (Except.ok "# Doc") (Except.error "boom")).1.chatSession = none :=
  session_failure_still_success _ "k" "# Doc" "boom" rfl (by decide)

/-- C7: from every component state, invoking `handleGenerate` with a non-empty
corpus but no stored credential only opens the key modal: every other field
(including the workflow state, document and session) is unchanged and no
remote call is issued, so a missing credential never produces `ERROR`. -/
theorem missing_key_opens_modal (s : AppSt)
    (docOutcome : Except String String) (sessionOutcome : Except String Nat)
    (hk : s.apiKey = none) (hc : jsTrim s.code ≠ "") :
    handleGenerate s docOutcome sessionOutcome = ({ s with isKeyModalOpen := true }, []) := by
  simp [handleGenerate, handleGenerateStart, hk, hc]

/-- C7 witness: a concrete credential-less state in which generation only
raises the key modal. -/
theorem missing_key_opens_modal_witness :
    handleGenerate ⟨"x", [], "d", AppState.IDLE, false, some 7, Tab.doc, none⟩
        (Except.ok "doc") (Except.ok 0) =
      (⟨"x", [], "d", AppState.IDLE, true, some 7, Tab.doc, none⟩, []) :=
  missing_key_opens_modal _ _ _ rfl (by decide)

/-- C10: the two path filters differ in case sensitivity. The directory rule
compares case-sensitively, so `NODE_MODULES/a.ts` is not ignored and is
accepted into the manifest (its extension test lowercases the path first),
while the lower-case `node_modules/a.ts` is dropped by the directory rule. -/
theorem filter_case_sensitivity_differs :
    isIgnoredPath "NODE_MODULES/a.ts" = false ∧
    isAllowedPath "NODE_MODULES/a.ts" = true ∧
    isAllowedPath "B.TS" = true ∧
    isIgnoredPath "node_modules/a.ts" = true ∧
    (processFiles [⟨"NODE_MODULES/a.ts", some "x", 1⟩]).1 = [⟨"NODE_MODULES/a.ts", 1⟩] ∧
    (processFiles [⟨"node_modules/a.ts", some "x", 1⟩]).1 = [] := by
  refine ⟨by decide, by decide, by decide, by decide, ?_, ?_⟩ <;> decide

/-- C8: with a session open and no send in flight, every `handleSend` run on a
non-empty input appends exactly one user turn carrying that input, followed by
exactly one model turn — the remote reply on success, the fixed synthetic
error turn on failure (the user turn staying in place) — clears the in-flight
flag, and leaves the session usable: a subsequent successful send on a new
non-empty input again appends exactly a user turn and a model turn. -/
theorem send_appends_user_and_model (s : ChatSt)
    (outcome : Except String (Option String)) (t1 t2 t3 t4 : Nat)
    (newInput : String) (resp : Option String) (u1 u2 u3 u4 : Nat)
    (hin : jsTrim s.input ≠ "") (hsend : s.isSending = false) :
    ∃ reply : ChatMessage,
      (handleSend s true outcome t1 t2 t3 t4).messages =
        s.messages ++ [⟨Nat.repr t1, Role.user, s.input, t2⟩, reply] ∧
      reply.role = Role.model ∧
      (∀ e, outcome = Except.error e → reply.text = sendFailText) ∧
      (∀ r, outcome = Except.ok r → reply.text = respText r) ∧
      (handleSend s true outcome t1 t2 t3 t4).isSending = false ∧
      (jsTrim newInput ≠ "" →
        (handleSend { handleSend s true outcome t1 t2 t3 t4 with input := newInput }
            true (Except.ok resp) u1 u2 u3 u4).messages =
          (handleSend s true outcome t1 t2 t3 t4).messages ++
            [⟨Nat.repr u1, Role.user, newInput, u2⟩,
             ⟨Nat.repr (u3 + 1), Role.model, respText resp, u4⟩]) := by
  cases outcome with
  | ok r =>
      refine ⟨⟨Nat.repr (t3 + 1), Role.model, respText r, t4⟩, ?_, rfl, ?_, ?_, ?_, ?_⟩
      · simp [handleSend, hin, hsend]
      · intro e he; cases he
      · intro r' hr'; cases hr'; rfl
      · simp [handleSend, hin, hsend]
      · intro hni
        simp [handleSend, hin, hsend, hni]
  | error e =>
      refine ⟨⟨Nat.repr (t3 + 1), Role.model, sendFailText, t4⟩, ?_, rfl, ?_, ?_, ?_, ?_⟩
      · simp [handleSend, hin, hsend]
      · intro e' he'; cases he'; rfl
      · intro r' hr'; cases hr'
      · simp [handleSend, hin, hsend]
      · intro hni
        simp [handleSend, hin, hsend, hni]

/-- C8 witness: concrete failing send followed by a successful one, both
appending a user turn plus a model turn. -/
theorem send_appends_user_and_model_witness :
    ∃ reply : ChatMessage,
      (handleSend ⟨[initGreeting 0], "你好", false⟩ true (Except.error "net") 10 11 12 13).messages =
        [initGreeting 0] ++ [⟨Nat.repr 10, Role.user, "你好", 11⟩, reply] ∧
      reply.role = Role.model ∧
      (∀ e, (Except.error "net" : Except String (Option String)) = Except.error e → reply.text = sendFailText) ∧
      (∀ r, (Except.error "net" : Except String (Option String)) = Except.ok r → reply.text = respText r) ∧
      (handleSend ⟨[initGreeting 0], "你好", false⟩ true (Except.error "net") 10 11 12 13).isSending = false ∧
      (jsTrim "再问" ≠ "" →
        (handleSend { handleSend ⟨[initGreeting 0], "你好", false⟩ true (Except.error "net") 10 11 12 13
              with input := "再问" } true (Except.ok (some "答案")) 20 21 22 23).messages =
          (handleSend ⟨[initGreeting 0], "你好", false⟩ true (Except.error "net") 10 11 12 13).messages ++
            [⟨Nat.repr 20, Role.user, "再问", 21⟩,
             ⟨Nat.repr (22 + 1), Role.model, respText (some "答案"), 23⟩]) :=
  send_appends_user_and_model ⟨[initGreeting 0], "你好", false⟩ (Except.error "net")
    10 11 12 13 "再问" (some "答案") 20 21 22 23 (by decide) rfl

/-- C9 counterexample: message ids are derived from `Date.now()` readings, so
two exchanges completing on adjacent millisecond readings collide. Starting
from the greeting, an exchange whose four readings are all `5` yields ids `5`
and `6`; a follow-up exchange with readings `6` yields ids `6` and `7` — the
transcript then contains two distinct messages with id `"6"`, refuting
uniqueness "regardless of how quickly successive exchanges complete". -/
theorem message_ids_can_collide :
    ¬ (List.Nodup ((handleSend
        { handleSend ⟨[initGreeting 0], "hi", false⟩ true (Except.ok (some "a")) 5 5 5 5
          with input := "again" } true (Except.ok (some "b")) 6 6 6 6).messages.map
          ChatMessage.id)) := by
  decide

/-- Accumulator step for reading a decimal digit list as a number. -/
def digitVal (a : Nat) (c : Char) : Nat := 10 * a + (c.toNat - 48)

/-- Numeric value of a decimal character list. -/
def strVal (l : List Char) : Nat := l.foldl digitVal 0

theorem digitChar_toNat : ∀ n, n < 10 → (Nat.digitChar n).toNat - 48 = n := by decide

theorem toDigitsCore_foldl (n : Nat) : ∀ (fuel : Nat), 0 < fuel → n < 10 ^ fuel →
    ∀ (ds : List Char) (a : Nat),
      (Nat.toDigitsCore 10 fuel n ds).foldl digitVal a =
        ds.foldl digitVal (a * 10 ^ (Nat.log 10 n + 1) + n) := by
  induction n using Nat.strong_induction_on with
  | _ n ih =>
    intro fuel hf hn ds a
    cases fuel with
    | zero => omega
    | succ f =>
      by_cases h10 : n / 10 = 0
      · have hlt : n < 10 := by omega
        have hlog : Nat.log 10 n = 0 := Nat.log_eq_zero_iff.2 (Or.inl hlt)
        simp only [Nat.toDigitsCore, h10, if_true, List.foldl]
        have : digitVal a (Nat.digitChar (n % 10)) = a * 10 ^ (Nat.log 10 n + 1) + n := by
          have hm : n % 10 = n := Nat.mod_eq_of_lt hlt
          simp [digitVal, hm, digitChar_toNat n hlt, hlog]
          ring
        rw [this]
      · have hge : 10 ≤ n := by omega
        have hfpos : 0 < f := by
          rcases Nat.eq_zero_or_pos f with hf0 | hf0
          · subst hf0; simp at hn; omega
          · exact hf0
        have hdiv : n / 10 < 10 ^ f := by
          rw [Nat.div_lt_iff_lt_mul (by norm_num)]
          calc n < 10 ^ (f + 1) := hn
          _ = 10 ^ f * 10 := by rw [pow_succ]
        have hself : n / 10 < n := Nat.div_lt_self (by omega) (by norm_num)
        have hrec := ih (n / 10) hself f hfpos hdiv (Nat.digitChar (n % 10) :: ds) a
        simp only [Nat.toDigitsCore, h10, if_false]
        rw [hrec]
        simp only [List.foldl]
        have hlog : Nat.log 10 (n / 10) + 1 = Nat.log 10 n := by
          have := Nat.log_div_base 10 n
          have hpos : 0 < Nat.log 10 n := Nat.log_pos (by norm_num) hge
          omega
        have hm : (Nat.digitChar (n % 10)).toNat - 48 = n % 10 :=
          digitChar_toNat (n % 10) (Nat.mod_lt n (by norm_num))
        have hdm : 10 * (n / 10) + n % 10 = n := Nat.div_add_mod n 10
        have : digitVal (a * 10 ^ (Nat.log 10 (n / 10) + 1) + n / 10) (Nat.digitChar (n % 10)) =
            a * 10 ^ (Nat.log 10 n + 1) + n := by
          simp only [digitVal, hm, hlog]
          calc 10 * (a * 10 ^ Nat.log 10 n + n / 10) + n % 10
              = a * 10 ^ Nat.log 10 n * 10 + (10 * (n / 10) + n % 10) := by ring
          _ = a * 10 ^ (Nat.log 10 n + 1) + n := by rw [hdm, pow_succ]; ring
        rw [this]

theorem strVal_repr (n : Nat) : strVal (Nat.repr n).data = n := by
  have h1 : n < 10 ^ (n + 1) :=
    calc n < 2 ^ n := Nat.lt_two_pow n
    _ ≤ 10 ^ n := Nat.pow_le_pow_left (by norm_num) n
    _ ≤ 10 ^ (n + 1) := Nat.pow_le_pow_right (by norm_num) (Nat.le_succ n)
  have h := toDigitsCore_foldl n (n + 1) (Nat.succ_pos n) h1 [] 0
  simpa [strVal, Nat.repr, Nat.toDigits, List.asString] using h

theorem repr_injective : Function.Injective Nat.repr := by
  intro m n h
  have := congrArg (fun s => strVal s.data) h
  simpa [strVal_repr] using this

theorem repr_ne_init (n : Nat) : Nat.repr n ≠ "init" := by
  intro h
  have h1 : n = 63838 := by
    have h2 := congrArg (fun s => strVal s.data) h
    simp only at h2
    rw [strVal_repr] at h2
    have h3 : strVal "init".data = 63838 := by decide
    rw [h3] at h2
    exact h2
  rw [h1] at h
  exact absurd h (by decide)

/-- One user-initiated exchange: the typed input, the `sendMessage` outcome,
and the four `Date.now()` readings taken while `handleSend` runs. -/
structure Exchange where
  input : String
  outcome : Except String (Option String)
  t1 : Nat
  t2 : Nat
  t3 : Nat
  t4 : Nat

/-- Run a sequence of exchanges against `ChatInterface`: before each send the
user types the exchange's input into the text area. -/
def runChat : ChatSt → List Exchange → ChatSt
  | s, [] => s
  | s, e :: es =>
      runChat (handleSend { s with input := e.input } true e.outcome e.t1 e.t2 e.t3 e.t4) es

/-- The two turns one completed exchange appends to the transcript. -/
def exchangeMsgs (e : Exchange) : List ChatMessage :=
  [⟨Nat.repr e.t1, Role.user, e.input, e.t2⟩,
   ⟨Nat.repr (e.t3 + 1), Role.model,
     (match e.outcome with
      | Except.ok r => respText r
      | Except.error _ => sendFailText), e.t4⟩]

theorem runChat_messages : ∀ (exs : List Exchange) (msgs : List ChatMessage) (inp : String),
    (∀ e ∈ exs, jsTrim e.input ≠ "") →
    (runChat ⟨msgs, inp, false⟩ exs).messages = msgs ++ (exs.map exchangeMsgs).flatten ∧
    (runChat ⟨msgs, inp, false⟩ exs).isSending = false := by
  intro exs
  induction exs with
  | nil => intro msgs inp _h; simp [runChat]
  | cons e es ih =>
      intro msgs inp h
      have he : jsTrim e.input ≠ "" := h e (List.mem_cons_self e es)
      have hstep : handleSend ⟨msgs, e.input, false⟩ true e.outcome e.t1 e.t2 e.t3 e.t4 =
          ⟨msgs ++ exchangeMsgs e, "", false⟩ := by
        cases ho : e.outcome with
        | ok r => simp [handleSend, he, exchangeMsgs, ho]
        | error err => simp [handleSend, he, exchangeMsgs, ho]
      have hupd : ({ (⟨msgs, inp, false⟩ : ChatSt) with input := e.input }) =
          (⟨msgs, e.input, false⟩ : ChatSt) := rfl
      simp only [runChat, hupd, hstep]
      have := ih (msgs ++ exchangeMsgs e) "" (fun e' he' => h e' (List.mem_cons_of_mem _ he'))
      simpa [List.append_assoc] using this

/-- Flattened sequence of the numbers from which a trace's message ids are
minted: per exchange, the send reading and the reply reading plus one. -/
def idNums (exs : List Exchange) : List Nat :=
  (exs.map fun e => [e.t1, e.t3 + 1]).flatten

theorem chain_idNums : ∀ (exs : List Exchange), (∀ e ∈ exs, e.t1 ≤ e.t3) →
    List.Chain' (fun a b => a.t3 + 1 < b.t1) exs →
    List.Chain' (· < ·) (idNums exs) := by
  intro exs
  induction exs with
  | nil => intro _ _; simp [idNums]
  | cons e es ih =>
      intro hm hg
      have h1 : e.t1 ≤ e.t3 := hm e (List.mem_cons_self e es)
      have hg2 : List.Chain' (fun a b => a.t3 + 1 < b.t1) es := hg.tail
      have ihs := ih (fun e' he' => hm e' (List.mem_cons_of_mem _ he')) hg2
      cases es with
      | nil => simp [idNums]; omega
      | cons e2 es2 =>
          have hgap : e.t3 + 1 < e2.t1 := List.chain'_cons.1 hg |>.1
          have : idNums (e :: e2 :: es2) = e.t1 :: (e.t3 + 1) :: idNums (e2 :: es2) := by
            simp [idNums]
          rw [this]
          have hhd : idNums (e2 :: es2) = e2.t1 :: (e2.t3 + 1) :: idNums es2 := by
            simp [idNums]
          rw [hhd] at ihs ⊢
          exact List.chain'_cons.2 ⟨by omega, List.chain'_cons.2 ⟨hgap, ihs⟩⟩

/-- C9 amended: transcript message ids are unique provided the exchanges are
spaced in time — within each exchange the clock does not run backwards
(`t1 ≤ t3`) and each new send happens strictly after the previous reply's id
value (`previous t3 + 1 < next t1`, i.e. at least two milliseconds between
adjacent exchanges). Without that spacing, ids can collide. -/
theorem message_ids_unique_when_spaced (g : Nat) (inp0 : String) (exs : List Exchange)
    (hin : ∀ e ∈ exs, jsTrim e.input ≠ "")
    (hmono : ∀ e ∈ exs, e.t1 ≤ e.t3)
    (hgap : List.Chain' (fun a b => a.t3 + 1 < b.t1) exs) :
    ((runChat ⟨[initGreeting g], inp0, false⟩ exs).messages.map ChatMessage.id).Nodup := by
  rw [(runChat_messages exs [initGreeting g] inp0 hin).1]
  have hids : ((([initGreeting g] ++ (exs.map exchangeMsgs).flatten)).map ChatMessage.id) =
      "init" :: (idNums exs).map Nat.repr := by
    simp only [List.map_append, List.map_flatten, List.map_map]
    have : ∀ (l : List Exchange),
        (l.map (List.map ChatMessage.id ∘ exchangeMsgs)).flatten =
          ((l.map fun e => [e.t1, e.t3 + 1]).flatten).map Nat.repr := by
      intro l
      induction l with
      | nil => rfl
      | cons x xs ihx => simp [exchangeMsgs, ihx]
    rw [this]
    rfl
  rw [hids, List.nodup_cons]
  constructor
  · intro hmem
    rcases List.mem_map.1 hmem with ⟨n, _, hn⟩
    exact repr_ne_init n hn
  · exact List.Nodup.map repr_injective
      (((List.chain'_iff_pairwise).1 (chain_idNums exs hmono hgap)).imp Nat.ne_of_lt)

/-- C9 amended witness: two exchanges at readings 5 and 8 (more than one
millisecond apart) produce a duplicate-free id list. -/
theorem message_ids_unique_when_spaced_witness :
    ((runChat ⟨[initGreeting 0], "", false⟩
        [⟨"hi", Except.ok (some "a"), 5, 5, 5, 5⟩,
         ⟨"again", Except.ok (some "b"), 8, 8, 8, 8⟩]).messages.map ChatMessage.id).Nodup :=
  message_ids_unique_when_spaced 0 ""
    [⟨"hi", Except.ok (some "a"), 5, 5, 5, 5⟩, ⟨"again", Except.ok (some "b"), 8, 8, 8, 8⟩]
    (by intro e he; fin_cases he <;> decide)
    (by intro e he; fin_cases he <;> decide)
    (by simp [List.chain'_cons])

theorem modifyHead_append {α : Type} (f : α → α) (A B : List α) (h : A ≠ []) :
    List.modifyHead f (A ++ B) = List.modifyHead f A ++ B := by
  cases A with
  | nil => exact absurd rfl h
  | cons a A' => rfl

theorem splitOn_ne_nil (sep : Char) (u : List Char) : u.splitOn sep ≠ [] := by
  unfold List.splitOn
  exact List.splitOnP_ne_nil _ _

theorem splitOn_sep_cons (sep : Char) (w : List Char) :
    (sep :: w).splitOn sep = [] :: w.splitOn sep := by
  unfold List.splitOn
  rw [List.splitOnP_cons]
  simp

theorem splitOn_cons_of_ne (sep c : Char) (w : List Char) (h : c ≠ sep) :
    (c :: w).splitOn sep = List.modifyHead (List.cons c) (w.splitOn sep) := by
  unfold List.splitOn
  rw [List.splitOnP_cons]
  simp [h]

theorem splitOn_append_sep (sep : Char) : ∀ (u w : List Char),
    (u ++ sep :: w).splitOn sep = u.splitOn sep ++ w.splitOn sep := by
  intro u
  induction u with
  | nil => intro w; rw [List.nil_append, splitOn_sep_cons, List.splitOn_nil]; rfl
  | cons c u' ih =>
      intro w
      by_cases h : c = sep
      · subst h
        rw [List.cons_append, splitOn_sep_cons, splitOn_sep_cons, ih, List.cons_append]
      · rw [List.cons_append, splitOn_cons_of_ne _ _ _ h, splitOn_cons_of_ne _ _ _ h, ih,
          modifyHead_append _ _ _ (splitOn_ne_nil sep u')]

theorem splitOn_eq_single (sep : Char) (u : List Char) (h : sep ∉ u) : u.splitOn sep = [u] := by
  unfold List.splitOn
  refine List.splitOnP_eq_single _ _ ?_
  intro x hx
  simp only [beq_iff_eq]
  intro he
  exact h (he ▸ hx)

theorem not_mem_splitOn (sep : Char) : ∀ (u : List Char), ∀ l ∈ u.splitOn sep, sep ∉ l := by
  intro u
  induction u with
  | nil =>
      intro l hl
      rw [List.splitOn_nil] at hl
      simp only [List.mem_singleton] at hl
      subst hl
      simp
  | cons c u' ih =>
      intro l hl
      by_cases h : c = sep
      · subst h
        rw [splitOn_sep_cons] at hl
        rcases List.mem_cons.1 hl with rfl | hl
        · simp
        · exact ih l hl
      · rw [splitOn_cons_of_ne _ _ _ h] at hl
        obtain ⟨hd, tl, hsplit⟩ : ∃ hd tl, u'.splitOn sep = hd :: tl := by
          cases hs : u'.splitOn sep with
          | nil => exact absurd hs (splitOn_ne_nil _ _)
          | cons a b => exact ⟨a, b, rfl⟩
        rw [hsplit] at hl
        simp only [List.modifyHead] at hl
        rcases List.mem_cons.1 hl with rfl | hl
        · intro hm
          rcases List.mem_cons.1 hm with hm | hm
          · exact h hm.symm
          · exact ih hd (hsplit ▸ List.mem_cons_self hd tl) hm
        · exact ih l (by rw [hsplit]; exact List.mem_cons_of_mem _ hl)

/-- Join a list of segments with a separator character (inverse of
`List.splitOn`). -/
def joinSep (sep : Char) : List (List Char) → List Char
  | [] => []
  | [x] => x
  | x :: xs => x ++ sep :: joinSep sep xs

theorem joinSep_cons (sep : Char) (x : List Char) (ys : List (List Char)) (h : ys ≠ []) :
    joinSep sep (x :: ys) = x ++ sep :: joinSep sep ys := by
  cases ys with
  | nil => exact absurd rfl h
  | cons y ys' => rfl

theorem joinSep_eq_intercalate (sep : Char) : ∀ ls, joinSep sep ls = [sep].intercalate ls := by
  intro ls
  induction ls with
  | nil => rfl
  | cons x ys ih =>
      cases ys with
      | nil => simp [joinSep, List.intercalate]
      | cons y ys' =>
          rw [joinSep_cons _ _ _ (by simp), ih]
          simp [List.intercalate, List.intersperse_cons_cons]

theorem joinSep_append (sep : Char) : ∀ (A B : List (List Char)), A ≠ [] → B ≠ [] →
    joinSep sep (A ++ B) = joinSep sep A ++ sep :: joinSep sep B := by
  intro A
  induction A with
  | nil => intro B h; exact absurd rfl h
  | cons a A' ih =>
      intro B _hA hB
      cases A' with
      | nil =>
          rw [List.singleton_append, joinSep_cons _ _ _ hB]
          simp [joinSep]
      | cons a2 A'' =>
          have e1 : joinSep sep ((a :: a2 :: A'') ++ B) =
              a ++ sep :: joinSep sep ((a2 :: A'') ++ B) := joinSep_cons _ _ _ (by simp)
          have e2 : joinSep sep (a :: a2 :: A'') =
              a ++ sep :: joinSep sep (a2 :: A'') := joinSep_cons _ _ _ (by simp)
          rw [e1, ih B (by simp) hB, e2]
          simp [List.append_assoc]

theorem joinSep_splitOn (sep : Char) (l : List Char) : joinSep sep (l.splitOn sep) = l := by
  rw [joinSep_eq_intercalate]
  exact List.intercalate_splitOn l sep

theorem hasSubstr_iff (sub : List Char) : ∀ l, hasSubstr sub l = true ↔ sub <:+: l := by
  intro l
  induction l with
  | nil =>
      show sub.isPrefixOf [] = true ↔ sub <:+: []
      rw [ List.isPrefixOf_iff_prefix, List.infix_nil, List.prefix_nil]
  | cons c t ih =>
      show (sub.isPrefixOf (c :: t) || hasSubstr sub t) = true ↔ sub <:+: c :: t
      rw [List.infix_cons_iff, Bool.or_eq_true, ih, List.isPrefixOf_iff_prefix]

/-- Path segments: the path split on `'/'`. -/
def segments (path : String) : List (List Char) := path.data.splitOn '/'

/-- The specification's drop condition: some configured ignored-directory name
occurs as an exact path segment, or the lowercased path does not end in any
allowed extension. -/
def specDropped (path : String) : Prop :=
  (∃ dir ∈ IGNORED_DIRS, dir.data ∈ segments path) ∨
  ¬ (∃ ext ∈ ALLOWED_EXTENSIONS, endsWithStr (jsToLower path) ext = true)

theorem slash_dir_slash_data (dir : String) :
    ("/" ++ dir ++ "/").data = '/' :: (dir.data ++ ['/']) := by
  rw [String.data_append, String.data_append]
  rfl

theorem dir_slash_data (dir : String) : (dir ++ "/").data = dir.data ++ ['/'] := by
  rw [String.data_append]

theorem dirHit_mem_segments (path dir : String) (hnd : '/' ∉ dir.data)
    (h : includesStr path ("/" ++ dir ++ "/") = true ∨ startsWithStr path (dir ++ "/") = true) :
    dir.data ∈ segments path := by
  rcases h with h | h
  · rw [includesStr, hasSubstr_iff] at h
    rcases h with ⟨u, v, huv⟩
    rw [slash_dir_slash_data] at huv
    have hpath : path.data = u ++ '/' :: (dir.data ++ '/' :: v) := by
      rw [← huv]
      simp
    unfold segments
    rw [hpath, splitOn_append_sep, splitOn_append_sep, splitOn_eq_single _ _ hnd]
    simp
  · rw [startsWithStr, List.isPrefixOf_iff_prefix] at h
    rcases h with ⟨v, hv⟩
    rw [dir_slash_data] at hv
    have hpath : path.data = dir.data ++ '/' :: v := by
      rw [← hv]
      simp
    unfold segments
    rw [hpath, splitOn_append_sep, splitOn_eq_single _ _ hnd]
    simp

theorem mem_segments_dirHit (path dir : String)
    (h : dir.data ∈ segments path) :
    (includesStr path ("/" ++ dir ++ "/") = true ∨ startsWithStr path (dir ++ "/") = true) ∨
      dir.data <:+ path.data := by
  have hjoin : joinSep '/' (segments path) = path.data := joinSep_splitOn '/' path.data
  rcases List.append_of_mem h with ⟨A, B, hAB⟩
  rw [hAB] at hjoin
  cases B with
  | cons b B' =>
      left
      have h2 : joinSep '/' (dir.data :: b :: B') =
          dir.data ++ '/' :: joinSep '/' (b :: B') := joinSep_cons _ _ _ (by simp)
      cases A with
      | nil =>
          right
          rw [startsWithStr, List.isPrefixOf_iff_prefix]
          rw [List.nil_append, h2] at hjoin
          refine ⟨joinSep '/' (b :: B'), ?_⟩
          rw [dir_slash_data, ← hjoin]
          simp
      | cons a A' =>
          left
          rw [includesStr, hasSubstr_iff]
          have h1 : joinSep '/' ((a :: A') ++ dir.data :: b :: B') =
              joinSep '/' (a :: A') ++ '/' :: joinSep '/' (dir.data :: b :: B') :=
            joinSep_append '/' (a :: A') (dir.data :: b :: B') (by simp) (by simp)
          rw [h1, h2] at hjoin
          refine ⟨joinSep '/' (a :: A'), joinSep '/' (b :: B'), ?_⟩
          rw [slash_dir_slash_data, ← hjoin]
          simp
  | nil =>
      right
      cases A with
      | nil =>
          rw [List.nil_append] at hjoin
          exact ⟨[], by rw [← hjoin]; rfl⟩
      | cons a A' =>
          have h1 : joinSep '/' ((a :: A') ++ [dir.data]) =
              joinSep '/' (a :: A') ++ '/' :: joinSep '/' [dir.data] :=
            joinSep_append '/' (a :: A') [dir.data] (by simp) (by simp)
          rw [h1] at hjoin
          refine ⟨joinSep '/' (a :: A') ++ ['/'], ?_⟩
          rw [← hjoin]
          simp [joinSep]

theorem ignored_dirs_no_slash : ∀ d ∈ IGNORED_DIRS, '/' ∉ d.data := by decide

theorem ignored_dirs_lower : ∀ d ∈ IGNORED_DIRS, d.data.map Char.toLower = d.data := by decide

theorem no_ext_suffix_of_dir : ∀ d ∈ IGNORED_DIRS, ∀ e ∈ ALLOWED_EXTENSIONS,
    ¬(e.data <:+ d.data) ∧ ¬(d.data <:+ e.data) := by decide

theorem suffix_kills_ext (path dir : String) (hdir : dir ∈ IGNORED_DIRS)
    (h : dir.data <:+ path.data) : isAllowedPath path = false := by
  rw [← Bool.not_eq_true, isAllowedPath, List.any_eq_true]
  rintro ⟨ext, hext, hend⟩
  rw [endsWithStr, List.isSuffixOf_iff_suffix] at hend
  have hlow : (jsToLower path).data = path.data.map Char.toLower := rfl
  rw [hlow] at hend
  have hdirsuf : dir.data <:+ path.data.map Char.toLower := by
    have := List.IsSuffix.map Char.toLower h
    rwa [ignored_dirs_lower dir hdir] at this
  rcases List.suffix_or_suffix_of_suffix hend hdirsuf with hc | hc
  · exact (no_ext_suffix_of_dir dir hdir ext hext).1 hc
  · exact (no_ext_suffix_of_dir dir hdir ext hext).2 hc

theorem codeDrop_iff_specDropped (path : String) :
    (isIgnoredPath path || !isAllowedPath path) = true ↔ specDropped path := by
  rw [Bool.or_eq_true, Bool.not_eq_true']
  constructor
  · rintro (h | h)
    · left
      rw [isIgnoredPath, List.any_eq_true] at h
      obtain ⟨dir, hdir, hhit⟩ := h
      rw [Bool.or_eq_true] at hhit
      exact ⟨dir, hdir, dirHit_mem_segments path dir (ignored_dirs_no_slash dir hdir) hhit⟩
    · right
      intro hex
      obtain ⟨ext, hext, hend⟩ := hex
      have hal : isAllowedPath path = true := by
        rw [isAllowedPath, List.any_eq_true]
        exact ⟨ext, hext, hend⟩
      rw [hal] at h
      cases h
  · rintro (⟨dir, hdir, hmem⟩ | h)
    · rcases mem_segments_dirHit path dir hmem with hhit | hsuf
      · left
        rw [isIgnoredPath, List.any_eq_true]
        refine ⟨dir, hdir, ?_⟩
        rw [Bool.or_eq_true]
        exact hhit
      · right
        exact suffix_kills_ext path dir hdir hsuf
    · right
      rw [Bool.eq_false_iff]
      intro htrue
      rw [isAllowedPath, List.any_eq_true] at htrue
      exact h htrue

/-- C4: an item that was read successfully is rejected by the Corpus Assembler
exactly when some configured ignored-directory name occurs as an exact path
segment of its path or the lowercased path ends in none of the allowed
extensions; and on Scenario A's selection the manifest is
`[(src/a.ts, 1), (README.md, 1)]`, with `node_modules/b.js` excluded by the
directory rule (its extension `.js` is allowed). -/
theorem dropped_iff_segment_or_extension :
    (∀ f : SourceFile, f.content.isSome = true →
      (accepts f = false ↔ specDropped f.path)) ∧
    (processFiles [⟨"src/a.ts", some "x", 1⟩, ⟨"node_modules/b.js", some "y", 1⟩,
        ⟨"README.md", some "z", 1⟩]).1 = [⟨"src/a.ts", 1⟩, ⟨"README.md", 1⟩] ∧
    isIgnoredPath "node_modules/b.js" = true ∧
    isAllowedPath "node_modules/b.js" = true := by
  refine ⟨?_, by decide, by decide, by decide⟩
  intro f hc
  rw [accepts, hc]
  rw [← codeDrop_iff_specDropped f.path]
  cases hig : isIgnoredPath f.path <;> cases hal : isAllowedPath f.path <;> simp

/-- C4 witness: a concrete readable item rejected by the segment rule. -/
theorem dropped_iff_segment_or_extension_witness :
    accepts ⟨"a/node_modules/c.ts", some "w", 2⟩ = false ↔
      specDropped "a/node_modules/c.ts" :=
  dropped_iff_segment_or_extension.1 ⟨"a/node_modules/c.ts", some "w", 2⟩ rfl

/-- Header line emitted for path `p`, as a character list:
`--- START OF FILE (p) ---`. -/
def hdrL (p : List Char) : List Char :=
  "--- START OF FILE ".data ++ p ++ " ---".data

/-- Character-list form of `fileBlock`: header line, newline, raw content, two
newlines. -/
def blockL (p c : List Char) : List Char :=
  hdrL p ++ '\n' :: (c ++ ['\n', '\n'])

/-- A line matching the literal sentinel pattern
`--- START OF FILE (path) ---`. -/
def isSentinelLine (l : List Char) : Bool :=
  "--- START OF FILE ".data.isPrefixOf l && " ---".data.isSuffixOf l &&
    decide (22 ≤ l.length)

/-- The path embedded in a sentinel line (drop the 18-character lead-in and
the 4-character tail). -/
def pathOfLine (l : List Char) : List Char :=
  (l.drop 18).take (l.length - 22)

/-- One right-to-left step of the corpus parser: a sentinel line closes an
entry whose body is the accumulated lines minus the trailing blank-line
artifact; any other line joins the accumulated body. -/
def parseStep (l : List Char) (acc : List (List Char) × List (List Char × List Char)) :
    List (List Char) × List (List Char × List Char) :=
  if isSentinelLine l then
    ([], (pathOfLine l, joinSep '\n' acc.1.dropLast) :: acc.2)
  else (l :: acc.1, acc.2)

/-- Parse a line sequence into (path, content) entries delimited by sentinel
lines. -/
def parseEntries (ls : List (List Char)) : List (List Char × List Char) :=
  (ls.foldr parseStep ([], [])).2

/-- Drop the empty final piece that splitting a newline-terminated text leaves
behind. -/
def stripLines (ls : List (List Char)) : List (List Char) :=
  if ls.getLast? = some [] then ls.dropLast else ls

/-- Split a corpus text on the literal sentinel pattern: cut the text into
lines, and recover one (path, content) pair per sentinel line. -/
def parseCorpus (text : String) : List (List Char × List Char) :=
  parseEntries (stripLines (text.data.splitOn '\n'))

theorem strJoin_data : ∀ l : List String, (String.join l).data = (l.map String.data).flatten := by
  intro l
  induction l with
  | nil => rfl
  | cons s rest ih =>
      rw [strJoin_cons, String.data_append, ih]
      rfl

theorem fileBlock_data (p c : String) : (fileBlock p c).data = blockL p.data c.data := by
  have h1 : (" ---\n" : String).data = " ---".data ++ ['\n'] := rfl
  have h2 : ("\n\n" : String).data = ['\n', '\n'] := rfl
  rw [fileBlock, blockL, hdrL]
  rw [String.data_append, String.data_append, String.data_append, String.data_append, h1, h2]
  simp

theorem hdrL_length (p : List Char) : (hdrL p).length = 18 + p.length + 4 := by
  rw [hdrL, List.length_append, List.length_append]
  have e1 : ("--- START OF FILE ".data).length = 18 := rfl
  have e2 : (" ---".data).length = 4 := rfl
  rw [e1, e2]

theorem isSentinelLine_hdr (p : List Char) : isSentinelLine (hdrL p) = true := by
  simp only [isSentinelLine, Bool.and_eq_true, decide_eq_true_eq]
  refine ⟨⟨?_, ?_⟩, ?_⟩
  · rw [ List.isPrefixOf_iff_prefix]
    exact ⟨p ++ " ---".data, by rw [hdrL]; simp⟩
  · rw [ List.isSuffixOf_iff_suffix]
    exact ⟨"--- START OF FILE ".data ++ p, by rw [hdrL]⟩
  · rw [hdrL_length]
    omega

theorem pathOfLine_hdr (p : List Char) : pathOfLine (hdrL p) = p := by
  rw [pathOfLine]
  have hlen : (hdrL p).length - 22 = p.length := by
    rw [hdrL_length]
    omega
  have hdrop : (hdrL p).drop 18 = p ++ " ---".data := by
    have h18 : 18 = ("--- START OF FILE ".data).length := rfl
    rw [hdrL, List.append_assoc, h18, List.drop_left]
  rw [hlen, hdrop, List.take_left]

theorem nl_not_mem_hdr (p : List Char) (hp : '\n' ∉ p) : '\n' ∉ hdrL p := by
  intro hmem
  rw [hdrL] at hmem
  rcases List.mem_append.1 hmem with h1 | h2
  · rcases List.mem_append.1 h1 with h3 | h4
    · exact absurd h3 (by decide)
    · exact hp h4
  · exact absurd h2 (by decide)

theorem splitOn_blocks : ∀ (items : List (List Char × List Char)),
    (∀ it ∈ items, '\n' ∉ it.1) →
    ((items.map fun it => blockL it.1 it.2).flatten).splitOn '\n' =
      (items.map fun it => hdrL it.1 :: (it.2.splitOn '\n' ++ [[]])).flatten ++ [[]] := by
  intro items
  induction items with
  | nil =>
      intro _
      rw [List.map_nil, List.flatten_nil, List.splitOn_nil, List.map_nil, List.flatten_nil,
        List.nil_append]
  | cons it rest ih =>
      intro h
      have hp : '\n' ∉ it.1 := h it (List.mem_cons_self it rest)
      have hrest := ih fun x hx => h x (List.mem_cons_of_mem _ hx)
      rw [List.map_cons, List.flatten_cons]
      have hshape : blockL it.1 it.2 ++ (rest.map fun x => blockL x.1 x.2).flatten =
          hdrL it.1 ++ '\n' ::
            (it.2 ++ '\n' :: '\n' :: (rest.map fun x => blockL x.1 x.2).flatten) := by
        rw [blockL]
        simp
      rw [hshape, splitOn_append_sep, splitOn_append_sep, splitOn_sep_cons, hrest,
        splitOn_eq_single _ _ (nl_not_mem_hdr it.1 hp)]
      rw [List.map_cons, List.flatten_cons]
      simp

theorem foldr_body (body : List (List Char)) (ents : List (List Char × List Char))
    (h : ∀ l ∈ body, isSentinelLine l = false) :
    body.foldr parseStep ([], ents) = (body, ents) := by
  induction body with
  | nil => rfl
  | cons l body' ih =>
      rw [List.foldr_cons, ih fun x hx => h x (List.mem_cons_of_mem _ hx)]
      rw [parseStep, h l (List.mem_cons_self l body')]
      simp

theorem foldr_groups : ∀ (items : List (List Char × List Char)),
    (∀ it ∈ items, ∀ l ∈ it.2.splitOn '\n', isSentinelLine l = false) →
    ((items.map fun it => hdrL it.1 :: (it.2.splitOn '\n' ++ [[]])).flatten).foldr
        parseStep ([], []) = ([], items) := by
  intro items
  induction items with
  | nil => intro _; rfl
  | cons it rest ih =>
      intro h
      have hbody : ∀ l ∈ it.2.splitOn '\n' ++ [[]], isSentinelLine l = false := by
        intro l hl
        rcases List.mem_append.1 hl with hl | hl
        · exact h it (List.mem_cons_self it rest) l hl
        · rcases List.mem_singleton.1 hl with rfl
          rfl
      rw [List.map_cons, List.flatten_cons, List.foldr_append,
        ih fun x hx => h x (List.mem_cons_of_mem _ hx)]
      rw [List.foldr_cons, foldr_body _ _ hbody, parseStep, isSentinelLine_hdr]
      rw [if_pos rfl]
      rw [pathOfLine_hdr]
      have hdrop : (it.2.splitOn '\n' ++ [[]]).dropLast = it.2.splitOn '\n' :=
        List.dropLast_concat
      simp only [hdrop, joinSep_splitOn]

/-- C3 (amended): provided no accepted path contains a newline and no line of
an accepted item's content matches the sentinel pattern, splitting the
assembled corpus on the sentinel lines recovers exactly the accepted items'
paths and raw contents, in order, with no loss and no duplication. When a
content line does match the sentinel pattern the recovery fails (see the
counterexample). -/
theorem corpus_roundtrip (files : List SourceFile)
    (hpath : ∀ f ∈ acceptedFiles files, '\n' ∉ f.path.data)
    (hcontent : ∀ f ∈ acceptedFiles files,
      ∀ l ∈ (contentOf f).data.splitOn '\n', isSentinelLine l = false) :
    parseCorpus (processFiles files).2 =
      (acceptedFiles files).map fun f => (f.path.data, (contentOf f).data) := by
  have h0 := processFilesLoop_eq files [] ""
  have htext : (processFiles files).2 =
      String.join ((acceptedFiles files).map fun f => fileBlock f.path (contentOf f)) := by
    rw [processFiles, h0]
    exact strEmpty_append _
  have hdata : (processFiles files).2.data =
      (((acceptedFiles files).map fun f => (f.path.data, (contentOf f).data)).map
        fun it => blockL it.1 it.2).flatten := by
    rw [htext, strJoin_data, List.map_map, List.map_map]
    congr 1
    refine List.map_congr_left ?_
    intro f _
    exact fileBlock_data f.path (contentOf f)
  have hpath2 : ∀ it ∈ (acceptedFiles files).map fun f => (f.path.data, (contentOf f).data),
      '\n' ∉ it.1 := by
    intro it hit
    rcases List.mem_map.1 hit with ⟨f, hf, rfl⟩
    exact hpath f hf
  have hcontent2 : ∀ it ∈ (acceptedFiles files).map fun f => (f.path.data, (contentOf f).data),
      ∀ l ∈ it.2.splitOn '\n', isSentinelLine l = false := by
    intro it hit
    rcases List.mem_map.1 hit with ⟨f, hf, rfl⟩
    exact hcontent f hf
  rw [parseCorpus, hdata, splitOn_blocks _ hpath2, stripLines]
  rw [List.getLast?_concat, if_pos rfl, List.dropLast_concat, parseEntries,
    foldr_groups _ hcontent2]

/-- C3 witness: a two-file selection with a multi-line content and an empty
content round-trips exactly. -/
theorem corpus_roundtrip_witness :
    parseCorpus (processFiles [⟨"a.ts", some "x\ny", 3⟩, ⟨"b.md", some "", 0⟩]).2 =
      [("a.ts".data, "x\ny".data), ("b.md".data, "".data)] :=
  (corpus_roundtrip [⟨"a.ts", some "x\ny", 3⟩, ⟨"b.md", some "", 0⟩]
    (by decide) (by decide)).trans (by decide)

/-- C3 counterexample: when an item's content is itself a line matching the
sentinel pattern, splitting the corpus on the sentinel pattern does not
recover the original content — the embedded sentinel is parsed as a file
boundary and the content is lost. -/
theorem corpus_roundtrip_fails_on_sentinel_content :
    parseCorpus (processFiles [⟨"a.ts", some "--- START OF FILE b.ts ---", 26⟩]).2 ≠
      [("a.ts".data, "--- START OF FILE b.ts ---".data)] := by
  decide

end CodeArch
